import Mathlib

/-!
Verification of the 2D→3D polyline back-projection core of the
`fo_cvat_polylines` plugin (`src/__init__.py`).

The embedding models the two computational pieces of the source:

* `polyline_2d_to_3d` (source lines 58–74): a numpy-based affine
  back-projection from normalized image coordinates to a 3D plane.
  Real-valued coordinates are modelled by `ℚ`; numpy arrays built from the
  nested Python lists are modelled by nested `List ℚ`, together with an
  explicit shape computation `rectShape` that captures exactly when
  `np.array(polyline_2d.points)` yields a full three-dimensional array on
  which all the slice assignments of the source succeed.  Any Python
  exception (ragged-array `ValueError` from `np.array`, `IndexError` from
  `shape[1]`/`shape[2]` on a short shape tuple, or `IndexError` from the
  `points[:,:,1]` slice when the last axis has size < 2) is modelled as
  `none`.

* the grouping loop of `load_annotation` (source lines 92–100): a fold over
  the batch entries that builds a Python dict keyed by `group.id`; the dict
  is modelled by an association list with Python-dict update semantics
  (`dictInsert`: overwrite in place, append new keys at the end).
-/

/-- `ProjectionMetadata` as consumed by `polyline_2d_to_3d`: the
orthographic-projection metadata record.  `min_bound`/`max_bound` are the
(x, y) bounds of the projected 3D region; `width`/`height` are the pixel
dimensions, read by the source (lines 61–62) but never used afterwards. -/
structure ProjectionMetadata where
  min_bound : ℚ × ℚ
  max_bound : ℚ × ℚ
  width : ℕ
  height : ℕ
deriving DecidableEq, Repr

/-- A 2D polyline: a label and an ordered sequence of chains, each chain an
ordered sequence of points, each point a list of coordinates.  The source
stores points as nested Python lists (`polyline_2d.points`), so the point
dimensionality is data, not type structure. -/
structure Polyline2D where
  label : String
  points : List (List (List ℚ))
deriving DecidableEq, Repr

/-- A 3D polyline as built by `fo.Polyline(points3d=..., label=...)` on
source line 74. -/
structure Polyline3D where
  label : String
  points3d : List (List (List ℚ))
deriving DecidableEq, Repr

/-- The shape `(c, n, d)` of `np.array(points)` when the nested list forms a
full three-dimensional rectangular array that the source's slice
assignments accept, and `none` otherwise.  Tracing source lines 63–68:

* `points = []` gives `np.array([]).shape = (0,)`, so `shape[1]` on line 64
  raises `IndexError` → `none`;
* chains of unequal length, or points of unequal length, make `np.array`
  fail on a ragged nested list → `none`;
* all chains empty gives shape `(c, 0)`, so `shape[2]` raises → `none`;
* all points empty gives shape `(c, n, 0)`; the array of zeros then has
  last axis of size 1 and `points[:,:,1]` on line 67 raises → `none`;
* otherwise the array is `(c, n, d)` with `c, n, d ≥ 1` and every
  subsequent numpy operation succeeds. -/
def rectShape (pts : List (List (List ℚ))) : Option (ℕ × ℕ × ℕ) :=
  match pts with
  | [] => none
  | ch :: rest =>
    if (decide (0 < ch.length) && decide (0 < (ch.headD []).length)
        && (ch :: rest).all (fun c => c.length == ch.length)
        && (ch :: rest).all (fun c => c.all (fun pt => pt.length == (ch.headD []).length)))
    then some ((ch :: rest).length, ch.length, (ch.headD []).length)
    else none

/-- The per-point action of source lines 64–72 on one point `pt` of the
array.  Line 64 allocates one extra coordinate, line 65 writes
`road_z_value` into the last slot (`points[:,:,-1]`), line 66 copies the
input into the first `d` slots, so the row is `pt ++ [road_z_value]`; lines
67–72 then update index 1 (`*= -1`, `+= 1`, `*= Δy`, `+= min_y`) and index
0 (`*= Δx`, `+= min_x`), in the source's order. -/
def transformPoint (min_bound max_bound : ℚ × ℚ) (road_z_value : ℚ)
    (pt : List ℚ) : List ℚ :=
  let r := pt ++ [road_z_value]
  let r := r.set 1 (-(r.getD 1 0))
  let r := r.set 1 (r.getD 1 0 + 1)
  let r := r.set 0 (r.getD 0 0 * (max_bound.1 - min_bound.1))
  let r := r.set 1 (r.getD 1 0 * (max_bound.2 - min_bound.2))
  let r := r.set 0 (r.getD 0 0 + min_bound.1)
  let r := r.set 1 (r.getD 1 0 + min_bound.2)
  r

/-- `polyline_2d_to_3d` (source lines 58–74).  `none` models the call
raising a Python exception; on success the result is the
`fo.Polyline(points3d=points.tolist(), label=polyline_2d.label)` of line
74, where every numpy operation acts independently on each point row. -/
def polyline_2d_to_3d (polyline_2d : Polyline2D) (metadata : ProjectionMetadata)
    (road_z_value : ℚ) : Option Polyline3D :=
  match rectShape polyline_2d.points with
  | none => none
  | some _ =>
      some { label := polyline_2d.label
             points3d := polyline_2d.points.map (fun chain =>
               chain.map (transformPoint metadata.min_bound metadata.max_bound road_z_value)) }

/-- The `fo.Polylines` collection stored in the `polyline_2d` field of a
sample: `sample_polylines.polylines` on source line 96. -/
structure Polylines2DColl where
  polylines : List Polyline2D
deriving DecidableEq, Repr

/-- The `fo.Polylines(polylines=sample_polylines_3d)` collection built on
source line 100. -/
structure Polylines3DColl where
  polylines : List Polyline3D
deriving DecidableEq, Repr

/-- One batch entry of the grouping loop: the (possibly absent) 2D polyline
collection, the sample's projection metadata, and its `group.id`. -/
abbrev BatchEntry := Option Polylines2DColl × ProjectionMetadata × String

/-- The inner loop of source lines 96–98: each polyline of the collection
is back-projected and appended in order; a raising back-projection
(`none`) aborts the iteration (the Python exception propagates). -/
def polylines_to_3d (ps : List Polyline2D) (metadata : ProjectionMetadata)
    (road_surface : ℚ) : Option (List Polyline3D) :=
  match ps with
  | [] => some []
  | p :: rest =>
    match polyline_2d_to_3d p metadata road_surface with
    | none => none
    | some q =>
      match polylines_to_3d rest metadata road_surface with
      | none => none
      | some qs => some (q :: qs)

/-- The body of source lines 94–100 for one entry: an absent collection
(`sample_polylines is None`) yields an empty list, otherwise the collection
is back-projected polyline by polyline. -/
def sample_to_3d (sample_polylines : Option Polylines2DColl)
    (metadata : ProjectionMetadata) (road_surface : ℚ) : Option Polylines3DColl :=
  match sample_polylines with
  | none => some { polylines := [] }
  | some coll =>
      match polylines_to_3d coll.polylines metadata road_surface with
      | none => none
      | some l => some { polylines := l }

/-- Python-dict assignment `m[k] = v`: an existing key keeps its position
and gets the new value; a new key is appended at the end. -/
def dictInsert (m : List (String × Polylines3DColl)) (k : String)
    (v : Polylines3DColl) : List (String × Polylines3DColl) :=
  if m.any (fun p => p.1 == k) then
    m.map (fun p => if p.1 == k then (k, v) else p)
  else
    m ++ [(k, v)]

/-- The grouping loop of `load_annotation` (source lines 92–100), folding
the batch entries into the `polylines_3d` dict starting from `acc`. -/
def loadLoop (entries : List BatchEntry) (road_surface : ℚ)
    (acc : List (String × Polylines3DColl)) : Option (List (String × Polylines3DColl)) :=
  match entries with
  | [] => some acc
  | (sp, md, gid) :: rest =>
    match sample_to_3d sp md road_surface with
    | none => none
    | some v => loadLoop rest road_surface (dictInsert acc gid v)

/-- The `polylines_3d` dict produced by `load_annotation`'s loop from an
initially empty dict (source line 92). -/
def load_annotation_groups (entries : List BatchEntry) (road_surface : ℚ) :
    Option (List (String × Polylines3DColl)) :=
  loadLoop entries road_surface []

/-- On a two-coordinate point `[u, v]`, the six updates of source lines
65–72 produce exactly the back-projection formula of the spec. -/
theorem transformPoint_pair (mn mx : ℚ × ℚ) (z u v : ℚ) :
    transformPoint mn mx z [u, v]
      = [u * (mx.1 - mn.1) + mn.1, (1 - v) * (mx.2 - mn.2) + mn.2, z] := by
  simp only [transformPoint, List.cons_append, List.nil_append, List.set_cons_zero,
    List.set_cons_succ, List.getD_cons_zero, List.getD_cons_succ, List.cons.injEq, and_true]
  exact ⟨trivial, by ring⟩

/-- A nonempty rectangular nested list with `n ≥ 1` points per chain and
`d ≥ 1` coordinates per point has numpy shape `(length, n, d)`. -/
theorem rectShape_eq_some (pts : List (List (List ℚ))) (n d : ℕ)
    (hne : pts ≠ []) (hn : 0 < n) (hd : 0 < d)
    (hlen : ∀ c ∈ pts, c.length = n)
    (hdim : ∀ c ∈ pts, ∀ q ∈ c, q.length = d) :
    rectShape pts = some (pts.length, n, d) := by
  cases pts with
  | nil => exact absurd rfl hne
  | cons ch rest =>
    have hchn : ch.length = n := hlen ch (List.mem_cons_self _ _)
    cases ch with
    | nil => rw [List.length_nil] at hchn; omega
    | cons q qs =>
      have hqd : q.length = d := hdim _ (List.mem_cons_self _ _) q (List.mem_cons_self _ _)
      simp only [rectShape, List.headD_cons]
      rw [if_pos]
      · rw [hchn, hqd]
      · simp only [Bool.and_eq_true, decide_eq_true_eq, List.all_eq_true, beq_iff_eq]
        refine ⟨⟨⟨?_, ?_⟩, ?_⟩, ?_⟩
        · omega
        · omega
        · intro c hc; rw [hlen c hc, hchn]
        · intro c hc q' hq'; rw [hdim c hc q' hq', hqd]

/-- C1: for every 2D polyline whose chains all have the same positive
length and whose points each have exactly two coordinates, and for every
metadata and plane height, `polyline_2d_to_3d` succeeds and each output
point equals `(u*(max.x-min.x)+min.x, (1-v)*(max.y-min.y)+min.y, z)` where
`(u, v)` is the corresponding input point. -/
theorem C1_point_formula (p : Polyline2D) (md : ProjectionMetadata) (z : ℚ) (n : ℕ)
    (hne : p.points ≠ []) (hn : 0 < n)
    (hlen : ∀ c ∈ p.points, c.length = n)
    (hdim : ∀ c ∈ p.points, ∀ q ∈ c, q.length = 2) :
    ∃ out, polyline_2d_to_3d p md z = some out ∧
      ∀ i j u v, (p.points.getD i []).getD j [] = [u, v] →
        (out.points3d.getD i []).getD j []
          = [u * (md.max_bound.1 - md.min_bound.1) + md.min_bound.1,
             (1 - v) * (md.max_bound.2 - md.min_bound.2) + md.min_bound.2, z] := by
  have hshape := rectShape_eq_some p.points n 2 hne hn (by norm_num) hlen hdim
  refine ⟨⟨p.label, p.points.map (fun chain =>
      chain.map (transformPoint md.min_bound md.max_bound z))⟩, ?_, ?_⟩
  · simp only [polyline_2d_to_3d, hshape]
  · intro i j u v huv
    by_cases hi : i < p.points.length
    · rw [List.getD_eq_getElem _ _ hi] at huv
      by_cases hj : j < (p.points[i]).length
      · rw [List.getD_eq_getElem _ _ hj] at huv
        have h1 : i < (p.points.map (fun chain =>
            chain.map (transformPoint md.min_bound md.max_bound z))).length := by
          simpa using hi
        rw [List.getD_eq_getElem _ _ h1]
        simp only [List.getElem_map]
        have h2 : j < ((p.points[i]).map
            (transformPoint md.min_bound md.max_bound z)).length := by
          simpa using hj
        rw [List.getD_eq_getElem _ _ h2]
        simp only [List.getElem_map]
        rw [huv, transformPoint_pair]
      · rw [List.getD_eq_default _ _ (Nat.le_of_not_lt hj)] at huv
        exact absurd huv (by simp)
    · rw [List.getD_eq_default _ _ (Nat.le_of_not_lt hi)] at huv
      exact absurd huv (by simp)

/-- Witness for C1 at the corner-mapping instance of the spec:
`min_bound = (0,0)`, `max_bound = (10,20)`, `plane_height = -1.6`; the
input point `(0,0)` maps to `(0, 20, -1.6)` and `(1,1)` to `(10, 0, -1.6)`. -/
theorem C1_point_formula_witness :
    ∃ out, polyline_2d_to_3d ⟨"lane", [[[0, 0], [1, 1]]]⟩
        ⟨(0, 0), (10, 20), 640, 1080⟩ (-8/5) = some out
      ∧ (out.points3d.getD 0 []).getD 0 [] = [0, 20, -8/5]
      ∧ (out.points3d.getD 0 []).getD 1 [] = [10, 0, -8/5] := by
  obtain ⟨out, hout, hpt⟩ :=
    C1_point_formula ⟨"lane", [[[0, 0], [1, 1]]]⟩ ⟨(0, 0), (10, 20), 640, 1080⟩
      (-8/5) 2 (by simp) (by norm_num)
      (by intro c hc; simp only [List.mem_singleton] at hc; subst hc; rfl)
      (by
        intro c hc q hq
        simp only [List.mem_singleton] at hc
        subst hc
        simp only [List.mem_cons, List.not_mem_nil, or_false] at hq
        rcases hq with h | h <;> subst h <;> rfl)
  refine ⟨out, hout, ?_, ?_⟩
  · have h := hpt 0 0 0 0 rfl
    rw [h]; norm_num
  · have h := hpt 0 1 1 1 rfl
    rw [h]; norm_num

/-- Successful back-projection is the per-point map over the nested list. -/
theorem polyline_2d_to_3d_eq_of_shape (p : Polyline2D) (md : ProjectionMetadata) (z : ℚ)
    (s : ℕ × ℕ × ℕ) (hrs : rectShape p.points = some s) :
    polyline_2d_to_3d p md z
      = some ⟨p.label, p.points.map (fun chain =>
          chain.map (transformPoint md.min_bound md.max_bound z))⟩ := by
  simp only [polyline_2d_to_3d, hrs]

/-- Inversion: any successful result is the per-point map. -/
theorem polyline_2d_to_3d_some_inv (p : Polyline2D) (md : ProjectionMetadata) (z : ℚ)
    (out : Polyline3D) (hout : polyline_2d_to_3d p md z = some out) :
    out = ⟨p.label, p.points.map (fun chain =>
      chain.map (transformPoint md.min_bound md.max_bound z))⟩ := by
  simp only [polyline_2d_to_3d] at hout
  rcases hrs : rectShape p.points with _ | s
  · simp only [hrs] at hout
    cases hout
  · simp only [hrs] at hout
    injection hout with h
    exact h.symm

/-- C5: every point of a successfully returned `Polyline3D` (for a
well-formed, two-coordinate input) has z-coordinate exactly the supplied
`road_z_value`. -/
theorem C5_constant_z (p : Polyline2D) (md : ProjectionMetadata) (z : ℚ)
    (out : Polyline3D)
    (hdim : ∀ c ∈ p.points, ∀ q ∈ c, q.length = 2)
    (hout : polyline_2d_to_3d p md z = some out) :
    ∀ ch ∈ out.points3d, ∀ pt ∈ ch, pt.getD 2 0 = z := by
  obtain rfl := polyline_2d_to_3d_some_inv p md z out hout
  intro ch hch pt hpt
  simp only [List.mem_map] at hch
  obtain ⟨chain, hchain, rfl⟩ := hch
  simp only [List.mem_map] at hpt
  obtain ⟨q, hq, rfl⟩ := hpt
  obtain ⟨u, v, rfl⟩ := List.length_eq_two.mp (hdim chain hchain q hq)
  rw [transformPoint_pair]
  rfl

/-- Witness for C5: the single input point `(1, 1)` with
`plane_height = -1.6` produces the point `(10, 0, -1.6)`, whose
z-coordinate is `-1.6`. -/
theorem C5_constant_z_witness :
    ([(10 : ℚ), 0, -8/5] : List ℚ).getD 2 0 = (-8/5 : ℚ) := by
  have h := C5_constant_z ⟨"lane", [[[1, 1]]]⟩ ⟨(0, 0), (10, 20), 640, 1080⟩ (-8/5)
      ⟨"lane", [[[10, 0, -8/5]]]⟩
      (by
        intro c hc q hq
        simp only [List.mem_singleton] at hc
        subst hc
        simp only [List.mem_singleton] at hq
        subst hq
        rfl)
      (by norm_num [polyline_2d_to_3d, rectShape, transformPoint])
  exact h [[10, 0, -8/5]] (List.mem_singleton.mpr rfl) [10, 0, -8/5]
    (List.mem_singleton.mpr rfl)

/-- C6: for every well-formed input, the output keeps the input's label,
its chain count, and each chain's point count. -/
theorem C6_shape_label_preserved (p : Polyline2D) (md : ProjectionMetadata) (z : ℚ)
    (n : ℕ) (hne : p.points ≠ []) (hn : 0 < n)
    (hlen : ∀ c ∈ p.points, c.length = n)
    (hdim : ∀ c ∈ p.points, ∀ q ∈ c, q.length = 2) :
    ∃ out, polyline_2d_to_3d p md z = some out
      ∧ out.label = p.label
      ∧ out.points3d.length = p.points.length
      ∧ ∀ i, (out.points3d.getD i []).length = (p.points.getD i []).length := by
  have hshape := rectShape_eq_some p.points n 2 hne hn (by norm_num) hlen hdim
  refine ⟨_, polyline_2d_to_3d_eq_of_shape p md z _ hshape, rfl, by simp, ?_⟩
  intro i
  by_cases hi : i < p.points.length
  · rw [List.getD_eq_getElem _ _ (by simpa using hi), List.getD_eq_getElem _ _ hi]
    simp
  · rw [List.getD_eq_default _ _ (by simpa using Nat.le_of_not_lt hi),
      List.getD_eq_default _ _ (Nat.le_of_not_lt hi)]

/-- Witness for C6 at a two-chain input. -/
theorem C6_shape_label_preserved_witness :
    ∃ out, polyline_2d_to_3d ⟨"curb", [[[0, 0]], [[1, 1]]]⟩
        ⟨(0, 0), (10, 20), 640, 1080⟩ (-8/5) = some out
      ∧ out.label = "curb"
      ∧ out.points3d.length = 2
      ∧ ∀ i, (out.points3d.getD i []).length
          = (([[[0, 0]], [[1, 1]]] : List (List (List ℚ))).getD i []).length := by
  obtain ⟨out, hout, hl, hc, hp⟩ :=
    C6_shape_label_preserved ⟨"curb", [[[0, 0]], [[1, 1]]]⟩
      ⟨(0, 0), (10, 20), 640, 1080⟩ (-8/5) 1 (by simp) (by norm_num)
      (by
        intro c hc
        simp only [List.mem_cons, List.not_mem_nil, or_false] at hc
        rcases hc with h | h <;> subst h <;> rfl)
      (by
        intro c hc q hq
        simp only [List.mem_cons, List.not_mem_nil, or_false] at hc
        rcases hc with h | h <;> subst h <;>
          (simp only [List.mem_singleton] at hq; subst hq; rfl))
  exact ⟨out, hout, hl, hc, hp⟩

/-- C9: the result of `polyline_2d_to_3d` does not depend on
`metadata.width` or `metadata.height`: two metadata records agreeing on the
bounds give equal results. -/
theorem C9_width_height_irrelevant (p : Polyline2D) (z : ℚ)
    (md1 md2 : ProjectionMetadata)
    (hmin : md1.min_bound = md2.min_bound)
    (hmax : md1.max_bound = md2.max_bound) :
    polyline_2d_to_3d p md1 z = polyline_2d_to_3d p md2 z := by
  rcases hrs : rectShape p.points with _ | s
  · simp only [polyline_2d_to_3d, hrs]
  · simp only [polyline_2d_to_3d, hrs, hmin, hmax]

/-- Witness for C9: two metadata records sharing bounds but with different
pixel dimensions give the same output. -/
theorem C9_width_height_irrelevant_witness :
    polyline_2d_to_3d ⟨"lane", [[[0, 0], [1, 1]]]⟩ ⟨(0, 0), (10, 20), 640, 1080⟩ (-8/5)
      = polyline_2d_to_3d ⟨"lane", [[[0, 0], [1, 1]]]⟩ ⟨(0, 0), (10, 20), 9999, 1⟩ (-8/5) :=
  C9_width_height_irrelevant ⟨"lane", [[[0, 0], [1, 1]]]⟩ (-8/5)
    ⟨(0, 0), (10, 20), 640, 1080⟩ ⟨(0, 0), (10, 20), 9999, 1⟩ rfl rfl

/-- C10: two chains of differing lengths make `np.array` ragged (or leave a
short shape tuple), so the call fails instead of producing a `Polyline3D`. -/
theorem C10_ragged_chains_fail (p : Polyline2D) (md : ProjectionMetadata) (z : ℚ)
    (c1 c2 : List (List ℚ)) (h1 : c1 ∈ p.points) (h2 : c2 ∈ p.points)
    (hne : c1.length ≠ c2.length) :
    polyline_2d_to_3d p md z = none := by
  have hrs : rectShape p.points = none := by
    cases hp : p.points with
    | nil =>
      rw [hp] at h1
      cases h1
    | cons ch rest =>
      rw [hp] at h1 h2
      simp only [rectShape]
      rw [if_neg]
      intro hcond
      simp only [Bool.and_eq_true, decide_eq_true_eq, List.all_eq_true, beq_iff_eq] at hcond
      obtain ⟨⟨⟨_, _⟩, hall⟩, _⟩ := hcond
      exact hne ((hall c1 h1).trans (hall c2 h2).symm)
  simp only [polyline_2d_to_3d, hrs]

/-- Witness for C10: a one-point chain next to a two-point chain fails. -/
theorem C10_ragged_chains_fail_witness :
    polyline_2d_to_3d ⟨"lane", [[[0, 0]], [[0, 0], [1, 1]]]⟩
      ⟨(0, 0), (10, 20), 640, 1080⟩ (-8/5) = none :=
  C10_ragged_chains_fail ⟨"lane", [[[0, 0]], [[0, 0], [1, 1]]]⟩
    ⟨(0, 0), (10, 20), 640, 1080⟩ (-8/5)
    [[0, 0]] [[0, 0], [1, 1]]
    (List.mem_cons_self _ _) (List.mem_cons_of_mem _ (List.mem_cons_self _ _))
    (by norm_num)

/-- C7: for fixed metadata and plane height, the per-point mapping of
`polyline_2d_to_3d` (source lines 67–72) is affine in `(u, v)`: projecting
the linear interpolation of two points equals the linear interpolation of
the two projected points (exactly, over `ℚ`). -/
theorem C7_pointwise_affine (md : ProjectionMetadata) (z t u1 v1 u2 v2 : ℚ) :
    transformPoint md.min_bound md.max_bound z
        [u1 + t * (u2 - u1), v1 + t * (v2 - v1)]
      = List.zipWith (fun a b => a + t * (b - a))
          (transformPoint md.min_bound md.max_bound z [u1, v1])
          (transformPoint md.min_bound md.max_bound z [u2, v2]) := by
  rw [transformPoint_pair, transformPoint_pair, transformPoint_pair]
  simp only [List.zipWith_cons_cons, List.zipWith_nil_right, List.cons.injEq, and_true]
  refine ⟨by ring, by ring, by ring⟩

/-- C2 counterexample: a polyline with zero chains makes the call fail
(`np.array([]).shape` is `(0,)`, so `shape[1]` on source line 64 raises
`IndexError`), refuting "polyline_2d_to_3d does not raise on empty input". -/
theorem C2_counterexample :
    polyline_2d_to_3d ⟨"lane", []⟩ ⟨(0, 0), (10, 20), 640, 1080⟩ (-8/5) = none := by
  norm_num [polyline_2d_to_3d, rectShape]

/-- C2 amended: for a polyline with zero chains, or with any empty chain,
`polyline_2d_to_3d` fails (raises in Python, `none` here) instead of
returning a `Polyline3D` with the corresponding empty structure. -/
theorem C2_empty_input_fails (p : Polyline2D) (md : ProjectionMetadata) (z : ℚ)
    (h : p.points = [] ∨ ∃ c ∈ p.points, c = []) :
    polyline_2d_to_3d p md z = none := by
  have hrs : rectShape p.points = none := by
    rcases h with h | ⟨c, hc, rfl⟩
    · rw [h]
      rfl
    · cases hp : p.points with
      | nil => rfl
      | cons ch rest =>
        rw [hp] at hc
        simp only [rectShape]
        rw [if_neg]
        intro hcond
        simp only [Bool.and_eq_true, decide_eq_true_eq, List.all_eq_true, beq_iff_eq]
          at hcond
        obtain ⟨⟨⟨hn, _⟩, hall⟩, _⟩ := hcond
        have h0 := hall [] hc
        rw [List.length_nil] at h0
        omega
  simp only [polyline_2d_to_3d, hrs]

/-- Witness for the amended C2: a nonempty chain next to an empty chain
still fails. -/
theorem C2_empty_input_fails_witness :
    polyline_2d_to_3d ⟨"mark", [[[0, 0]], []]⟩
      ⟨(0, 0), (10, 20), 640, 1080⟩ (-8/5) = none :=
  C2_empty_input_fails ⟨"mark", [[[0, 0]], []]⟩ ⟨(0, 0), (10, 20), 640, 1080⟩ (-8/5)
    (Or.inr ⟨[], List.mem_cons_of_mem _ (List.mem_cons_self _ _), rfl⟩)

/-- C3 counterexample: a point with one coordinate does not fail fast: the
call succeeds and returns a two-coordinate "3D" point in which the road
height was fed through the y-axis transform
(`u = 1/2 ↦ (1/2·10, (1 − (−8/5))·20) = (5, 52)`). -/
theorem C3_counterexample :
    polyline_2d_to_3d ⟨"lane", [[[1/2]]]⟩ ⟨(0, 0), (10, 20), 640, 1080⟩ (-8/5)
      = some ⟨"lane", [[[5, 52]]]⟩ := by
  norm_num [polyline_2d_to_3d, rectShape, transformPoint]

/-- C3 amended: for rectangular input whose points all have `d ≥ 1`
coordinates — any dimensionality, not just 2 — `polyline_2d_to_3d` does not
fail: it succeeds and returns points with `d + 1` coordinates, silently
applying the planar transform to indices 0 and 1 whatever they hold. -/
theorem C3_no_fail_fast (p : Polyline2D) (md : ProjectionMetadata) (z : ℚ)
    (n d : ℕ) (hne : p.points ≠ []) (hn : 0 < n) (hd : 0 < d)
    (hlen : ∀ c ∈ p.points, c.length = n)
    (hdim : ∀ c ∈ p.points, ∀ q ∈ c, q.length = d) :
    ∃ out, polyline_2d_to_3d p md z = some out
      ∧ ∀ ch ∈ out.points3d, ∀ pt ∈ ch, pt.length = d + 1 := by
  have hshape := rectShape_eq_some p.points n d hne hn hd hlen hdim
  refine ⟨_, polyline_2d_to_3d_eq_of_shape p md z _ hshape, ?_⟩
  intro ch hch pt hpt
  simp only [List.mem_map] at hch
  obtain ⟨chain, hchain, rfl⟩ := hch
  simp only [List.mem_map] at hpt
  obtain ⟨q, hq, rfl⟩ := hpt
  have hlen1 : (transformPoint md.min_bound md.max_bound z q).length = q.length + 1 := by
    simp [transformPoint]
  rw [hlen1, hdim chain hchain q hq]

/-- Witness for the amended C3 at a one-coordinate point. -/
theorem C3_no_fail_fast_witness :
    ∃ out, polyline_2d_to_3d ⟨"road", [[[1/4]]]⟩
        ⟨(0, 0), (10, 20), 640, 1080⟩ (-8/5) = some out
      ∧ ∀ ch ∈ out.points3d, ∀ pt ∈ ch, pt.length = 1 + 1 := by
  exact C3_no_fail_fast ⟨"road", [[[1/4]]]⟩ ⟨(0, 0), (10, 20), 640, 1080⟩ (-8/5)
    1 1 (by simp) (by norm_num) (by norm_num)
    (by
      intro c hc
      simp only [List.mem_singleton] at hc
      subst hc
      rfl)
    (by
      intro c hc q hq
      simp only [List.mem_singleton] at hc
      subst hc
      simp only [List.mem_singleton] at hq
      subst hq
      rfl)

theorem lookup_cons_self (a : String) (b : Polylines3DColl)
    (rest : List (String × Polylines3DColl)) :
    List.lookup a ((a, b) :: rest) = some b := by
  simp only [List.lookup, beq_self_eq_true]

theorem lookup_cons_of_ne (k a : String) (b : Polylines3DColl)
    (rest : List (String × Polylines3DColl)) (h : k ≠ a) :
    List.lookup k ((a, b) :: rest) = List.lookup k rest := by
  simp only [List.lookup, beq_eq_false_iff_ne.mpr h]

theorem lookup_append_split (k : String) (m1 m2 : List (String × Polylines3DColl)) :
    List.lookup k (m1 ++ m2)
      = match List.lookup k m1 with
        | some b => some b
        | none => List.lookup k m2 := by
  induction m1 with
  | nil => rfl
  | cons p rest ih =>
    obtain ⟨a, b⟩ := p
    by_cases hk : k = a
    · subst hk
      rw [List.cons_append, lookup_cons_self, lookup_cons_self]
    · rw [List.cons_append, lookup_cons_of_ne _ _ _ _ hk, lookup_cons_of_ne _ _ _ _ hk, ih]

theorem lookup_eq_none_of_not_mem_keys (k : String)
    (m : List (String × Polylines3DColl)) (h : k ∉ m.map Prod.fst) :
    List.lookup k m = none := by
  induction m with
  | nil => rfl
  | cons p rest ih =>
    obtain ⟨a, b⟩ := p
    simp only [List.map_cons, List.mem_cons, not_or] at h
    rw [lookup_cons_of_ne _ _ _ _ h.1]
    exact ih h.2

theorem keys_map_replace (m : List (String × Polylines3DColl)) (k : String)
    (v : Polylines3DColl) :
    (m.map (fun p => if p.1 == k then (k, v) else p)).map Prod.fst
      = m.map Prod.fst := by
  induction m with
  | nil => rfl
  | cons p rest ih =>
    simp only [List.map_cons, ih, List.cons.injEq, and_true]
    by_cases hk : p.1 = k
    · simp [hk]
    · simp [hk]

theorem lookup_map_replace_self (m : List (String × Polylines3DColl)) (k : String)
    (v : Polylines3DColl) (hany : m.any (fun p => p.1 == k) = true) :
    (m.map (fun p => if p.1 == k then (k, v) else p)).lookup k = some v := by
  induction m with
  | nil => cases hany
  | cons p rest ih =>
    simp only [List.map_cons]
    by_cases hk : p.1 = k
    · rw [if_pos (by simpa using hk), lookup_cons_self]
    · have hrest : rest.any (fun p => p.1 == k) = true := by
        simp only [List.any_cons, Bool.or_eq_true, beq_iff_eq] at hany
        rcases hany with h | h
        · exact absurd h hk
        · simpa [List.any_eq_true] using h
      rw [if_neg (by simpa using hk)]
      obtain ⟨a, b⟩ := p
      rw [lookup_cons_of_ne _ _ _ _ (Ne.symm hk)]
      exact ih hrest

theorem lookup_map_replace_of_ne (m : List (String × Polylines3DColl)) (k k' : String)
    (v : Polylines3DColl) (hne : k' ≠ k) :
    (m.map (fun p => if p.1 == k then (k, v) else p)).lookup k'
      = m.lookup k' := by
  induction m with
  | nil => rfl
  | cons p rest ih =>
    obtain ⟨a, b⟩ := p
    simp only [List.map_cons]
    by_cases hk : a = k
    · subst hk
      rw [if_pos (by simp), lookup_cons_of_ne _ _ _ _ hne, lookup_cons_of_ne _ _ _ _ hne, ih]
    · rw [if_neg (by simpa using hk)]
      by_cases hk' : k' = a
      · subst hk'
        rw [lookup_cons_self, lookup_cons_self]
      · rw [lookup_cons_of_ne _ _ _ _ hk', lookup_cons_of_ne _ _ _ _ hk', ih]

theorem dictInsert_keys_of_not_mem (m : List (String × Polylines3DColl)) (k : String)
    (v : Polylines3DColl) (h : k ∉ m.map Prod.fst) :
    (dictInsert m k v).map Prod.fst = m.map Prod.fst ++ [k] := by
  have hany : m.any (fun p => p.1 == k) = false := by
    rw [List.any_eq_false]
    intro p hp
    simp only [beq_iff_eq]
    intro hpk
    exact h (hpk ▸ List.mem_map_of_mem Prod.fst hp)
  simp [dictInsert, hany]

theorem dictInsert_keys_of_mem (m : List (String × Polylines3DColl)) (k : String)
    (v : Polylines3DColl) (h : k ∈ m.map Prod.fst) :
    (dictInsert m k v).map Prod.fst = m.map Prod.fst := by
  have hany : m.any (fun p => p.1 == k) = true := by
    simp only [List.any_eq_true, beq_iff_eq]
    obtain ⟨p, hp, rfl⟩ := List.mem_map.mp h
    exact ⟨p, hp, rfl⟩
  simp only [dictInsert, hany, if_true]
  exact keys_map_replace m k v

theorem dictInsert_keys_nodup (m : List (String × Polylines3DColl)) (k : String)
    (v : Polylines3DColl) (h : (m.map Prod.fst).Nodup) :
    ((dictInsert m k v).map Prod.fst).Nodup := by
  by_cases hmem : k ∈ m.map Prod.fst
  · rw [dictInsert_keys_of_mem m k v hmem]
    exact h
  · rw [dictInsert_keys_of_not_mem m k v hmem]
    refine List.nodup_append.mpr ⟨h, List.nodup_singleton k, ?_⟩
    intro a ha hb
    rw [List.mem_singleton] at hb
    subst hb
    exact hmem ha

theorem dictInsert_lookup_self (m : List (String × Polylines3DColl)) (k : String)
    (v : Polylines3DColl) : (dictInsert m k v).lookup k = some v := by
  simp only [dictInsert]
  by_cases hany : m.any (fun p => p.1 == k) = true
  · rw [if_pos hany]
    exact lookup_map_replace_self m k v hany
  · rw [if_neg hany]
    have hnone : m.lookup k = none := by
      apply lookup_eq_none_of_not_mem_keys
      intro hmem
      apply hany
      simp only [List.any_eq_true, beq_iff_eq]
      obtain ⟨p, hp, rfl⟩ := List.mem_map.mp hmem
      exact ⟨p, hp, rfl⟩
    rw [lookup_append_split, hnone, lookup_cons_self]

theorem dictInsert_lookup_of_ne (m : List (String × Polylines3DColl)) (k k' : String)
    (v : Polylines3DColl) (hne : k' ≠ k) :
    (dictInsert m k v).lookup k' = m.lookup k' := by
  simp only [dictInsert]
  by_cases hany : m.any (fun p => p.1 == k) = true
  · rw [if_pos hany]
    exact lookup_map_replace_of_ne m k k' v hne
  · rw [if_neg hany, lookup_append_split]
    rcases hm : m.lookup k' with _ | b
    · rw [lookup_cons_of_ne _ _ _ _ hne]
      rfl
    · rfl

theorem mem_keys_of_lookup_eq_some (m : List (String × Polylines3DColl)) (k : String)
    (v : Polylines3DColl) (h : m.lookup k = some v) : k ∈ m.map Prod.fst := by
  induction m with
  | nil => cases h
  | cons p rest ih =>
    obtain ⟨a, b⟩ := p
    by_cases hk : k = a
    · subst hk
      simp
    · rw [lookup_cons_of_ne _ _ _ _ hk] at h
      simp only [List.map_cons, List.mem_cons]
      exact Or.inr (ih h)

theorem loadLoop_append (es1 es2 : List BatchEntry) (z : ℚ)
    (acc : List (String × Polylines3DColl)) :
    loadLoop (es1 ++ es2) z acc
      = match loadLoop es1 z acc with
        | none => none
        | some m => loadLoop es2 z m := by
  induction es1 generalizing acc with
  | nil => rfl
  | cons e rest ih =>
    obtain ⟨sp, md, gid⟩ := e
    simp only [List.cons_append, loadLoop]
    rcases hs : sample_to_3d sp md z with _ | v
    · rfl
    · exact ih _

theorem loadLoop_isSome (entries : List BatchEntry) (z : ℚ) :
    ∀ acc, (∀ e ∈ entries, (sample_to_3d e.1 e.2.1 z).isSome = true) →
      ∃ m, loadLoop entries z acc = some m := by
  induction entries with
  | nil => exact fun acc _ => ⟨acc, rfl⟩
  | cons e rest ih =>
    intro acc h
    obtain ⟨sp, md, gid⟩ := e
    have he := h _ (List.mem_cons_self _ _)
    rcases hs : sample_to_3d sp md z with _ | v
    · rw [hs] at he
      simp at he
    · simp only [loadLoop, hs]
      exact ih _ (fun e' he' => h e' (List.mem_cons_of_mem _ he'))

theorem loadLoop_keys (entries : List BatchEntry) (z : ℚ) :
    ∀ acc m, (entries.map (fun e => e.2.2)).Nodup →
      loadLoop entries z acc = some m →
      (∀ e ∈ entries, e.2.2 ∉ acc.map Prod.fst) →
      m.map Prod.fst = acc.map Prod.fst ++ entries.map (fun e => e.2.2) := by
  induction entries with
  | nil =>
    intro acc m _ h _
    simp only [loadLoop] at h
    injection h with h
    subst h
    simp
  | cons e rest ih =>
    intro acc m hnd h hdisj
    obtain ⟨sp, md, gid⟩ := e
    simp only [loadLoop] at h
    rcases hs : sample_to_3d sp md z with _ | v
    · rw [hs] at h
      cases h
    · rw [hs] at h
      have hgid : gid ∉ acc.map Prod.fst := hdisj _ (List.mem_cons_self _ _)
      have hkeys := dictInsert_keys_of_not_mem acc gid v hgid
      simp only [List.map_cons, List.nodup_cons] at hnd
      have hdisj2 : ∀ e2 ∈ rest, e2.2.2 ∉ (dictInsert acc gid v).map Prod.fst := by
        intro e2 he2
        rw [hkeys]
        simp only [List.mem_append, List.mem_singleton, not_or]
        refine ⟨hdisj e2 (List.mem_cons_of_mem _ he2), ?_⟩
        intro heq
        exact hnd.1 (heq ▸ List.mem_map_of_mem (fun e => e.2.2) he2)
      rw [ih _ _ hnd.2 h hdisj2, hkeys]
      simp

theorem loadLoop_lookup_of_not_mem (entries : List BatchEntry) (z : ℚ) :
    ∀ acc m k, loadLoop entries z acc = some m →
      k ∉ entries.map (fun e => e.2.2) →
      m.lookup k = acc.lookup k := by
  induction entries with
  | nil =>
    intro acc m k h _
    simp only [loadLoop] at h
    injection h with h
    subst h
    rfl
  | cons e rest ih =>
    intro acc m k h hk
    obtain ⟨sp, md, gid⟩ := e
    simp only [loadLoop] at h
    rcases hs : sample_to_3d sp md z with _ | v
    · rw [hs] at h
      cases h
    · rw [hs] at h
      simp only [List.map_cons, List.mem_cons, not_or] at hk
      rw [ih _ _ _ h hk.2, dictInsert_lookup_of_ne _ _ _ _ hk.1]

theorem loadLoop_keys_nodup (entries : List BatchEntry) (z : ℚ) :
    ∀ acc m, (acc.map Prod.fst).Nodup → loadLoop entries z acc = some m →
      (m.map Prod.fst).Nodup := by
  induction entries with
  | nil =>
    intro acc m h hm
    simp only [loadLoop] at hm
    injection hm with hm
    subst hm
    exact h
  | cons e rest ih =>
    intro acc m h hm
    obtain ⟨sp, md, gid⟩ := e
    simp only [loadLoop] at hm
    rcases hs : sample_to_3d sp md z with _ | v
    · rw [hs] at hm
      cases hm
    · rw [hs] at hm
      exact ih _ _ (dictInsert_keys_nodup acc gid v h) hm

/-- A successful run binds the group id of the last entry carrying it to
that entry's back-projected collection. -/
theorem loadLoop_lookup_last (es1 es2 : List BatchEntry) (e : BatchEntry) (z : ℚ)
    (acc m : List (String × Polylines3DColl))
    (h : loadLoop (es1 ++ e :: es2) z acc = some m)
    (hlast : e.2.2 ∉ es2.map (fun x => x.2.2)) :
    ∃ v, sample_to_3d e.1 e.2.1 z = some v ∧ m.lookup e.2.2 = some v := by
  rw [loadLoop_append] at h
  rcases h1 : loadLoop es1 z acc with _ | m1
  · rw [h1] at h
    cases h
  · rw [h1] at h
    obtain ⟨sp, md, gid⟩ := e
    simp only [loadLoop] at h
    rcases hs : sample_to_3d sp md z with _ | v
    · rw [hs] at h
      cases h
    · rw [hs] at h
      refine ⟨v, rfl, ?_⟩
      have := loadLoop_lookup_of_not_mem es2 z _ _ _ h hlast
      rw [this, dictInsert_lookup_self]

/-- C4: for a batch with pairwise-distinct group identifiers, the output
dict has exactly one key per entry, in order, each equal to that entry's
group identifier; an entry whose 2D polyline collection is absent is still
present, mapped to an empty `Polylines` collection. -/
theorem C4_batch_grouping (entries : List BatchEntry) (z : ℚ)
    (m : List (String × Polylines3DColl))
    (hnd : (entries.map (fun e => e.2.2)).Nodup)
    (h : load_annotation_groups entries z = some m) :
    m.map Prod.fst = entries.map (fun e => e.2.2)
      ∧ ∀ e ∈ entries, e.1 = none → m.lookup e.2.2 = some ⟨[]⟩ := by
  simp only [load_annotation_groups] at h
  constructor
  · have hk := loadLoop_keys entries z [] m hnd h (by intro e he; simp)
    simpa using hk
  · intro e he hnone
    obtain ⟨es1, es2, rfl⟩ := List.append_of_mem he
    have hlast : e.2.2 ∉ es2.map (fun x => x.2.2) := by
      rw [List.map_append, List.map_cons] at hnd
      have h2 := hnd.of_append_right
      exact (List.nodup_cons.mp h2).1
    obtain ⟨v, hv, hlook⟩ := loadLoop_lookup_last es1 es2 e z [] m h hlast
    rw [hnone] at hv
    simp only [sample_to_3d] at hv
    injection hv with hv
    rw [hlook, ← hv]

/-- Witness for C4: a two-entry batch, the first with no annotation; the
output has keys `["g1", "g2"]` and maps `"g1"` to the empty collection. -/
theorem C4_batch_grouping_witness :
    ([("g1", (⟨[]⟩ : Polylines3DColl)),
        ("g2", ⟨[⟨"lane", [[[0, 20, -8/5]]]⟩]⟩)] : List (String × Polylines3DColl)).map
        Prod.fst = ["g1", "g2"]
      ∧ List.lookup "g1"
          ([("g1", (⟨[]⟩ : Polylines3DColl)),
            ("g2", ⟨[⟨"lane", [[[0, 20, -8/5]]]⟩]⟩)] : List (String × Polylines3DColl))
          = some ⟨[]⟩ := by
  obtain ⟨hkeys, habs⟩ := C4_batch_grouping
      [(none, ⟨(0, 0), (10, 20), 640, 1080⟩, "g1"),
       (some ⟨[⟨"lane", [[[0, 0]]]⟩]⟩, ⟨(0, 0), (10, 20), 640, 1080⟩, "g2")] (-8/5)
      [("g1", ⟨[]⟩), ("g2", ⟨[⟨"lane", [[[0, 20, -8/5]]]⟩]⟩)]
      (by decide)
      (by
        have hne : ("g1" : String) ≠ "g2" := by decide
        norm_num [load_annotation_groups, loadLoop, sample_to_3d, polylines_to_3d,
          polyline_2d_to_3d, rectShape, transformPoint, dictInsert, hne])
  refine ⟨by simpa using hkeys, ?_⟩
  exact habs (none, ⟨(0, 0), (10, 20), 640, 1080⟩, "g1") (List.mem_cons_self _ _) rfl

/-- C8: two entries carrying the same group identifier do not make the
batch loop fail: the output contains that identifier exactly once, bound to
the later entry's back-projected collection. -/
theorem C8_duplicate_gid_overwrite (es1 es2 es3 : List BatchEntry) (e1 e2 : BatchEntry)
    (z : ℚ) (hgid : e1.2.2 = e2.2.2)
    (hlast : e2.2.2 ∉ es3.map (fun x => x.2.2))
    (hok : ∀ e ∈ es1 ++ e1 :: es2 ++ e2 :: es3, (sample_to_3d e.1 e.2.1 z).isSome = true) :
    ∃ m v2, load_annotation_groups (es1 ++ e1 :: es2 ++ e2 :: es3) z = some m
      ∧ sample_to_3d e2.1 e2.2.1 z = some v2
      ∧ m.lookup e2.2.2 = some v2
      ∧ (m.map Prod.fst).count e2.2.2 = 1 := by
  obtain ⟨m, hm⟩ := loadLoop_isSome _ z [] hok
  have hm2 : loadLoop ((es1 ++ e1 :: es2) ++ e2 :: es3) z [] = some m := by
    simpa using hm
  obtain ⟨v2, hv2, hlook⟩ := loadLoop_lookup_last (es1 ++ e1 :: es2) es3 e2 z [] m hm2 hlast
  refine ⟨m, v2, hm, hv2, hlook, ?_⟩
  have hnd : (m.map Prod.fst).Nodup := loadLoop_keys_nodup _ z [] m (by simp) hm
  have hmem : e2.2.2 ∈ m.map Prod.fst := mem_keys_of_lookup_eq_some m _ v2 hlook
  exact List.count_eq_one_of_mem hnd hmem

/-- Witness for C8: two entries with the same identifier `"g"`; the second
entry's collection wins and `"g"` appears once. -/
theorem C8_duplicate_gid_overwrite_witness :
    ∃ m v2, load_annotation_groups
        [(none, ⟨(0, 0), (10, 20), 640, 1080⟩, "g"),
         (some ⟨[⟨"lane", [[[0, 0]]]⟩]⟩, ⟨(0, 0), (10, 20), 640, 1080⟩, "g")] (-8/5)
        = some m
      ∧ sample_to_3d (some ⟨[⟨"lane", [[[0, 0]]]⟩]⟩)
          ⟨(0, 0), (10, 20), 640, 1080⟩ (-8/5) = some v2
      ∧ m.lookup "g" = some v2
      ∧ (m.map Prod.fst).count "g" = 1 := by
  exact C8_duplicate_gid_overwrite [] [] []
    (none, ⟨(0, 0), (10, 20), 640, 1080⟩, "g")
    (some ⟨[⟨"lane", [[[0, 0]]]⟩]⟩, ⟨(0, 0), (10, 20), 640, 1080⟩, "g")
    (-8/5) rfl (by simp)
    (by
      intro e he
      simp at he
      rcases he with h | h <;> subst h
      · rfl
      · norm_num [sample_to_3d, polylines_to_3d, polyline_2d_to_3d, rectShape,
          transformPoint])
